import Mathlib

/-!
Shallow embedding of the blockchain sample (src/v2.rs, src/v3.rs, src/v4.rs).

The four Rust demo stages share the same `Transaction` / `Wallet` code
verbatim (v2.rs lines 10-98 reappear unchanged in v3.rs and v4.rs), so those
are embedded once at top level.  The authority-signed block design of v3.rs
lives in namespace `V3`, the proof-of-work design of v4.rs in namespace `V4`.

Cryptographic primitives from the `ring` crate (SHA-512, Ed25519 key
derivation, signing and verification) are black boxes to this repository, so
they are modelled by an abstract `CryptoModel` structure; each theorem states
the cryptographic assumptions it needs (correct round-trip, message binding,
digest injectivity) as explicit hypotheses, and concrete instances discharge
them on concrete inputs.

serde_json serialization, which the code uses as its canonical encoding for
both signing and hashing, is modelled by explicit construction of the exact
JSON strings serde_json produces (compact encoding, fields in declaration
order, `Vec<u8>` as a decimal number array).
-/

/-- Byte sequences (Rust `Vec<u8>`); entries are byte values. -/
abbrev Bytes := List Nat

/-- Abstract model of the `ring` crate primitives used by the repository:
`sha512` digests a serialized string, `sign sk m` signs message bytes `m` with
the pkcs8 private-key material `sk`, `publicKey sk` is the public half of
`sk`, and `verify pk m s` checks signature `s` on message `m` under public key
`pk` (the `ring` verifier returns a `Result` carrying no information, so a
`Bool` is a faithful model). -/
structure CryptoModel where
  sha512 : String → Bytes
  sign : Bytes → Bytes → Bytes
  publicKey : Bytes → Bytes
  verify : Bytes → Bytes → Bytes → Bool

/-- The character serde_json uses for a decimal digit. -/
def digitChar (d : Nat) : Char :=
  match d with
  | 0 => '0'
  | 1 => '1'
  | 2 => '2'
  | 3 => '3'
  | 4 => '4'
  | 5 => '5'
  | 6 => '6'
  | 7 => '7'
  | 8 => '8'
  | 9 => '9'
  | _ => '*'

/-- Little-endian decimal digits of `n`, with explicit fuel so the recursion
is structural (fuel `n` itself always suffices since `n / 10 < n`). -/
def natDigitsRev (fuel n : Nat) : List Nat :=
  match fuel with
  | 0 => []
  | f + 1 => if n = 0 then [] else n % 10 :: natDigitsRev f (n / 10)

/-- Decimal rendering of a natural number, exactly as serde_json renders an
unsigned integer (such as a `u8` array element or the `u32` nonce). -/
def renderNat (n : Nat) : String :=
  if n = 0 then "0" else String.mk (((natDigitsRev n n).map digitChar).reverse)

/-- Recombine little-endian decimal digits; left inverse of `natDigitsRev`. -/
def undigits (ds : List Nat) : Nat :=
  match ds with
  | [] => 0
  | d :: ds => d + 10 * undigits ds

/-- serde_json rendering of a `Vec<u8>`: a compact JSON array of decimals. -/
def renderBytes (bs : Bytes) : String :=
  "[" ++ String.intercalate "," (bs.map renderNat) ++ "]"

/-- Model of the Rust `f32` transaction value.  The repository only ever
constructs values from literals, compares them, and serializes them with
serde_json — it never computes with them — so a value is modelled by its
serde_json decimal rendering (for example "5.0").  Distinct `f32` values have
distinct serde_json renderings and equal values render equally, which this
representation preserves by construction. -/
structure F32 where
  render : String
deriving DecidableEq

/-- `Transaction` (v2.rs lines 10-16, identical in v3.rs and v4.rs). -/
structure Transaction where
  sender_address : Bytes
  receiver_address : Bytes
  value : F32
  sign : Bytes
deriving DecidableEq

/-- serde_json serialization of a `Transaction` with all four fields, in
declaration order, as `serde_json::to_string` produces it. -/
def Transaction.render (t : Transaction) : String :=
  "\x7b\"sender_address\":" ++ renderBytes t.sender_address ++
    ",\"receiver_address\":" ++ renderBytes t.receiver_address ++
    ",\"value\":" ++ t.value.render ++
    ",\"sign\":" ++ renderBytes t.sign ++ "\x7d"

/-- `Transact::str_data` (v2.rs lines 22-32): serialize a copy of the
transaction whose `sign` field is cleared to the empty vector. -/
def Transaction.str_data (t : Transaction) : String :=
  Transaction.render
    { sender_address := t.sender_address
      receiver_address := t.receiver_address
      value := t.value
      sign := [] }

/-- `Wallet` (v2.rs lines 34-38).  `Wallet::new` draws fresh pkcs8 key
material from the system RNG; the randomness is external input, so theorems
quantify over the key material and assume `address = publicKey private_key`,
which `Wallet::new` establishes by construction. -/
structure Wallet where
  private_key : Bytes
  address : Bytes
deriving DecidableEq

/-- `Deal::sign_transaction` (v2.rs lines 58-69): hash the cleared-signature
encoding with SHA-512 and sign the digest with the wallet's private key. -/
def Wallet.sign_transaction (σ : CryptoModel) (w : Wallet) (t : Transaction) :
    Transaction :=
  let h := σ.sha512 t.str_data
  { sender_address := t.sender_address
    receiver_address := t.receiver_address
    value := t.value
    sign := σ.sign w.private_key h }

/-- `Deal::send` (v2.rs lines 71-79): build the unsigned transaction and
immediately sign it. -/
def Wallet.send (σ : CryptoModel) (w : Wallet) (receiver_address : Bytes)
    (value : F32) : Transaction :=
  Wallet.sign_transaction σ w
    { sender_address := w.address
      receiver_address := receiver_address
      value := value
      sign := [] }

/-- The two failure cases of `verify_transaction`.  The code reports them as
`anyhow` string messages; `emptySignature` models the empty-sign message at
v2.rs line 85 and `invalidSignature` models the invalid-sign message at
v2.rs line 96. -/
inductive TxError where
  | emptySignature
  | invalidSignature
deriving DecidableEq

/-- `verify_transaction` (v2.rs lines 84-98, identical in v3.rs and v4.rs):
empty signature is rejected outright; otherwise the SHA-512 digest of the
cleared-signature encoding is checked against the signature under the
sender's address as public key. -/
def verify_transaction (σ : CryptoModel) (t : Transaction) :
    Except TxError Unit :=
  if t.sign = [] then .error .emptySignature
  else
    let h := σ.sha512 t.str_data
    if σ.verify t.sender_address h t.sign then .ok () else .error .invalidSignature

/-- The `is_err()` test the block verifiers apply to transaction results. -/
def txIsErr (r : Except TxError Unit) : Bool :=
  match r with
  | .ok _ => false
  | .error _ => true

/-- serde_json serialization of a `Vec<Transaction>`: each transaction fully
serialized (including its `sign` field), joined in a compact JSON array. -/
def renderTransactionList (ts : List Transaction) : String :=
  "[" ++ String.intercalate "," (ts.map Transaction.render) ++ "]"

/-- Rust `usize` subtraction, which panics (debug) on underflow: defined only
when `b ≤ a`. -/
def checkedSub (a b : Nat) : Option Nat :=
  if b ≤ a then some (a - b) else none

namespace V3

/-- `Block` of the authority-signed design (v3.rs lines 84-90).  The
`DateTime<Utc>` timestamp is opaque metadata; it is modelled by its RFC 3339
rendering, the string serde serializes it to. -/
structure Block where
  time : String
  transactions : List Transaction
  previous_hash : Bytes
  sign : Bytes
deriving DecidableEq

instance : Inhabited Block :=
  ⟨{ time := "", transactions := [], previous_hash := [], sign := [] }⟩

/-- serde_json serialization of a v3 `Block`: fields in declaration order,
the timestamp as a JSON string. -/
def blockRender (b : Block) : String :=
  "\x7b\"time\":\"" ++ b.time ++
    "\",\"transactions\":" ++ renderTransactionList b.transactions ++
    ",\"previous_hash\":" ++ renderBytes b.previous_hash ++
    ",\"sign\":" ++ renderBytes b.sign ++ "\x7d"

/-- `HashBlock::hash` for v3 (v3.rs lines 96-107): SHA-512 of the
serialization of a copy of the block whose `sign` field is cleared. -/
def Block.hash (σ : CryptoModel) (b : Block) : Bytes :=
  σ.sha512 (blockRender
    { time := b.time
      transactions := b.transactions
      previous_hash := b.previous_hash
      sign := [] })

/-- `TimestampServer` (v3.rs lines 109-114). -/
structure TimestampServer where
  public_key : Bytes
  block_chain : List Block
  signer : Bytes
deriving DecidableEq

/-- `TimestampServer::new` (v3.rs lines 116-135).  The fresh pkcs8 key
material and the clock reading are external inputs (RNG and wall clock), so
they are parameters; the genesis block has empty transactions, empty
previous hash and empty signature. -/
def TimestampServer.new (σ : CryptoModel) (pkcs8 : Bytes) (now : String) :
    TimestampServer :=
  { public_key := σ.publicKey pkcs8
    block_chain :=
      [{ time := now, transactions := [], previous_hash := [], sign := [] }]
    signer := pkcs8 }

/-- `BlockGenerator::generate_block` (v3.rs lines 141-164): copy the
transaction slice, link to the hash of the current tail block, sign the
serialization of the block (whose `sign` is still empty, so this is the same
string `Block.hash` digests), and push the signed block.  The code reaches
the tail with `last().unwrap()`; the total model uses the chain's last
element with a default for the empty chain, and `generate_block?` below
records that the unwrap panics exactly on the empty chain. -/
def TimestampServer.generate_block (σ : CryptoModel) (s : TimestampServer)
    (transactions : List Transaction) (now : String) : TimestampServer :=
  let block : Block :=
    { time := now
      transactions := transactions
      previous_hash := Block.hash σ (s.block_chain.getLastD default)
      sign := [] }
  let h := σ.sha512 (blockRender block)
  let sg := σ.sign s.signer h
  { s with block_chain := s.block_chain ++ [{ block with sign := sg }] }

/-- `generate_block` with the `last().unwrap()` panic made explicit: `none`
exactly when the chain is empty (when `last()` is `None`). -/
def TimestampServer.generateBlockChecked (σ : CryptoModel)
    (s : TimestampServer) (transactions : List Transaction) (now : String) :
    Option TimestampServer :=
  if s.block_chain.isEmpty then none
  else some (TimestampServer.generate_block σ s transactions now)

/-- `verify_block` (v3.rs lines 181-195): previous-hash link, per-transaction
verification, and the authority signature over the block's own hash; a
signature failure short-circuits to `false`. -/
def verify_block (σ : CryptoModel) (previous_block block : Block)
    (timestamp_server_publickey : Bytes) : Bool :=
  let is_correct_hash := Block.hash σ previous_block == block.previous_hash
  let is_correct_transactions :=
    (block.transactions.filter (fun x => txIsErr (verify_transaction σ x))).isEmpty
  let h := Block.hash σ block
  if σ.verify timestamp_server_publickey h block.sign then
    is_correct_hash && is_correct_transactions
  else false

/-- `verify_blockchain` (v3.rs lines 197-203): for `i` in `0..len-1`, with
`index = len - i`, check the pair `(chain[index-2], chain[index-1])`, failing
on the first bad pair (the short-circuit of `List.all` mirrors the early
`return false`).  Out-of-range access is modelled with a default; the checked
variant below shows every access is in bounds for a non-empty chain. -/
def verify_blockchain (σ : CryptoModel) (chain : List Block)
    (timestamp_server_publickey : Bytes) : Bool :=
  (List.range (chain.length - 1)).all fun i =>
    verify_block σ (chain.getD (chain.length - i - 2) default)
      (chain.getD (chain.length - i - 1) default) timestamp_server_publickey

/-- The same pairwise walk taken forward, used to state that the direction of
the walk does not affect the result. -/
def verify_blockchain_fwd (σ : CryptoModel) (chain : List Block)
    (timestamp_server_publickey : Bytes) : Bool :=
  (List.range (chain.length - 1)).all fun i =>
    verify_block σ (chain.getD i default) (chain.getD (i + 1) default)
      timestamp_server_publickey

/-- Loop body of `verify_blockchain` with every `usize` subtraction and every
index access checked, to model the panics Rust debug builds would raise:
`r` iterations remain, `i` is the current loop counter. -/
def verifyChainCheckedAux (σ : CryptoModel) (chain : List Block) (pk : Bytes) :
    Nat → Nat → Option Bool
  | 0, _ => some true
  | r + 1, i =>
    match checkedSub chain.length i with
    | none => none
    | some index =>
      match checkedSub index 2, checkedSub index 1 with
      | some a, some b =>
        match chain[a]?, chain[b]? with
        | some p, some c =>
          if verify_block σ p c pk then verifyChainCheckedAux σ chain pk r (i + 1)
          else some false
        | _, _ => none
      | _, _ => none

/-- `verify_blockchain` with the loop bound `chain.len() - 1` and all inner
arithmetic/indexing checked; `none` models a panic. -/
def verify_blockchain_checked (σ : CryptoModel) (chain : List Block)
    (pk : Bytes) : Option Bool :=
  match checkedSub chain.length 1 with
  | none => none
  | some bound => verifyChainCheckedAux σ chain pk bound 0

end V3

namespace V4

/-- `Block` of the proof-of-work design (v4.rs lines 84-90): the attestation
is a `u32` nonce.  The nonce is modelled as a natural number; the search in
`mine` starts at 0 and increments, and a Rust debug build would panic on
`u32` overflow before any wrap-around, so within any terminating search the
model agrees with the code. -/
structure Block where
  time : String
  transactions : List Transaction
  previous_hash : Bytes
  nonce : Nat
deriving DecidableEq

instance : Inhabited Block :=
  ⟨{ time := "", transactions := [], previous_hash := [], nonce := 0 }⟩

/-- serde_json serialization of a v4 `Block`: fields in declaration order,
the nonce as a decimal number. -/
def blockRender (b : Block) : String :=
  "\x7b\"time\":\"" ++ b.time ++
    "\",\"transactions\":" ++ renderTransactionList b.transactions ++
    ",\"previous_hash\":" ++ renderBytes b.previous_hash ++
    ",\"nonce\":" ++ renderNat b.nonce ++ "\x7d"

/-- `HashBlock::hash` for v4 (v4.rs lines 96-107): the copy serialized keeps
every field, including the nonce, so the digest covers the attestation. -/
def Block.hash (σ : CryptoModel) (b : Block) : Bytes :=
  σ.sha512 (blockRender
    { time := b.time
      transactions := b.transactions
      previous_hash := b.previous_hash
      nonce := b.nonce })

/-- `DIFFICULTY` (v4.rs line 138). -/
def DIFFICULTY : Nat := 1

/-- `valid_proof` (v4.rs lines 139-147): the first `DIFFICULTY` bytes of the
block hash must all be zero; the first nonzero byte aborts with the
invalid-nonce error (a SHA-512 digest always has 64 bytes, so the indexing
never leaves the digest). -/
def valid_proof (σ : CryptoModel) (b : Block) : Except String Unit :=
  let h := Block.hash σ b
  if (List.range DIFFICULTY).all (fun i => h.getD i 0 == 0) then .ok ()
  else .error "invalid nonce."

/-- The `is_err()` test `mine` applies to `valid_proof`. -/
def proofErr (r : Except String Unit) : Bool :=
  match r with
  | .ok _ => false
  | .error _ => true

/-- The loop of `mine` (v4.rs lines 158-162) with explicit fuel, since the
nonce search is unbounded by design: while the proof is invalid, increment
the nonce and retry; `none` means the fuel ran out before a valid nonce. -/
def mineAux (σ : CryptoModel) : Nat → Block → Option Block
  | 0, _ => none
  | fuel + 1, b =>
    if proofErr (valid_proof σ b) then
      mineAux σ fuel { b with nonce := b.nonce + 1 }
    else some b

/-- `mine` (v4.rs lines 149-164): copy the template block with nonce 0 and
search upward for the first nonce whose block hash satisfies the difficulty
predicate. -/
def mine (σ : CryptoModel) (fuel : Nat) (block : Block) : Option Block :=
  mineAux σ fuel
    { time := block.time
      transactions := block.transactions
      previous_hash := block.previous_hash
      nonce := 0 }

end V4

/-- A concrete cryptographic model used to evaluate theorems on concrete
inputs: the digest is the character-code sequence of the string (injective),
a signature is the private key and message prefixed by a marker byte, the
public key equals the private key material, and verification recomputes the
expected signature. -/
def toyCrypto : CryptoModel :=
  { sha512 := fun s => s.data.map Char.toNat
    sign := fun sk m => 0 :: (sk ++ m)
    publicKey := fun sk => sk
    verify := fun pk m sg => sg == 0 :: (pk ++ m) }

/-- A concrete model whose digest is constantly the 64-byte zero vector, so
the proof-of-work search succeeds immediately on concrete inputs. -/
def zeroHashCrypto : CryptoModel :=
  { sha512 := fun _ => List.replicate 64 0
    sign := fun sk m => 0 :: (sk ++ m)
    publicKey := fun sk => sk
    verify := fun pk m sg => sg == 0 :: (pk ++ m) }

/-! ## Helper lemmas about the serialization model -/

theorem string_data_inj (a b : String) (h : a.data = b.data) : a = b := by
  cases a
  cases b
  exact congrArg String.mk h

theorem undigits_natDigitsRev (fuel : Nat) :
    ∀ n : Nat, n ≤ fuel → undigits (natDigitsRev fuel n) = n := by
  induction fuel with
  | zero =>
    intro n h
    interval_cases n
    rfl
  | succ f ih =>
    intro n h
    by_cases hn : n = 0
    · subst hn
      simp [natDigitsRev, undigits]
    · have hdiv : n / 10 ≤ f := by
        have := Nat.div_lt_self (Nat.pos_of_ne_zero hn) (by norm_num : (1:Nat) < 10)
        omega
      simp only [natDigitsRev, hn, if_false, undigits, ih _ hdiv]
      omega

theorem natDigitsRev_lt_ten (fuel : Nat) :
    ∀ n : Nat, ∀ d ∈ natDigitsRev fuel n, d < 10 := by
  induction fuel with
  | zero =>
    intro n d hd
    simp [natDigitsRev] at hd
  | succ f ih =>
    intro n d hd
    by_cases hn : n = 0
    · subst hn
      simp [natDigitsRev] at hd
    · simp only [natDigitsRev, hn, if_false, List.mem_cons] at hd
      rcases hd with h | h
      · omega
      · exact ih _ _ h

theorem digitChar_inj (d e : Nat) (hd : d < 10) (he : e < 10)
    (h : digitChar d = digitChar e) : d = e := by
  interval_cases d <;> interval_cases e <;> revert h <;> decide

theorem map_digitChar_inj (a : List Nat) :
    ∀ b : List Nat, (∀ x ∈ a, x < 10) → (∀ x ∈ b, x < 10) →
      a.map digitChar = b.map digitChar → a = b := by
  induction a with
  | nil =>
    intro b _ _ h
    cases b with
    | nil => rfl
    | cons y ys => simp at h
  | cons x xs ih =>
    intro b ha hb h
    cases b with
    | nil => simp at h
    | cons y ys =>
      simp only [List.map_cons, List.cons.injEq] at h
      obtain ⟨h1, h2⟩ := h
      have hx := ha x (by simp)
      have hy := hb y (by simp)
      rw [digitChar_inj x y hx hy h1,
        ih ys (fun z hz => ha z (by simp [hz])) (fun z hz => hb z (by simp [hz])) h2]

theorem renderNat_eq_zero_imp (m : Nat) (h : renderNat m = "0") : m = 0 := by
  by_contra hm
  rw [renderNat, if_neg hm] at h
  have hdata : (((natDigitsRev m m).map digitChar).reverse) = ['0'] :=
    congrArg String.data h
  have hrev := congrArg List.reverse hdata
  rw [List.reverse_reverse] at hrev
  cases hds : natDigitsRev m m with
  | nil =>
    rw [hds] at hrev
    simp at hrev
  | cons d ds =>
    rw [hds] at hrev
    simp only [List.reverse_cons, List.map_cons] at hrev
    have hd0 : digitChar d = '0' := by
      cases ds with
      | nil => simpa using hrev
      | cons e es => simp at hrev
    have hds0 : ds = [] := by
      cases ds with
      | nil => rfl
      | cons e es => simp at hrev
    have hdlt : d < 10 := natDigitsRev_lt_ten m m d (by rw [hds]; simp)
    have : d = 0 := digitChar_inj d 0 hdlt (by norm_num) (by simpa using hd0)
    have hround := undigits_natDigitsRev m m (le_refl m)
    rw [hds, hds0, this] at hround
    simp [undigits] at hround
    exact hm hround.symm

theorem renderNat_injective : Function.Injective renderNat := by
  intro n m h
  by_cases hn : n = 0
  · subst hn
    exact (renderNat_eq_zero_imp m h.symm).symm
  · by_cases hm : m = 0
    · subst hm
      exact renderNat_eq_zero_imp n h
    · rw [renderNat, renderNat, if_neg hn, if_neg hm] at h
      have hdata := congrArg String.data h
      simp only [] at hdata
      have hrev := congrArg List.reverse hdata
      rw [List.reverse_reverse, List.reverse_reverse] at hrev
      have := map_digitChar_inj (natDigitsRev n n) (natDigitsRev m m)
        (natDigitsRev_lt_ten n n) (natDigitsRev_lt_ten m m) hrev
      have h1 := undigits_natDigitsRev n n (le_refl n)
      have h2 := undigits_natDigitsRev m m (le_refl m)
      rw [this] at h1
      rw [h2] at h1
      exact h1.symm

theorem char_toNat_injective : Function.Injective Char.toNat := by
  intro a b h
  have := congrArg Char.ofNat h
  rwa [Char.ofNat_toNat, Char.ofNat_toNat] at this

theorem toySha_injective : Function.Injective toyCrypto.sha512 := by
  intro a b h
  exact string_data_inj a b (List.map_injective_iff.mpr char_toNat_injective h)

theorem bool_eq_of_iff {a b : Bool} (h : a = true ↔ b = true) : a = b := by
  cases a <;> cases b <;> simp_all

theorem txIsErr_eq_false (r : Except TxError Unit) :
    txIsErr r = false ↔ r = .ok () := by
  cases r with
  | ok u => cases u; simp [txIsErr]
  | error e => simp [txIsErr]

theorem proofErr_eq_false (r : Except String Unit) :
    V4.proofErr r = false ↔ r = .ok () := by
  cases r with
  | ok u => cases u; simp [V4.proofErr]
  | error e => simp [V4.proofErr]

theorem string_append_five_cancel (a1 a2 a3 a4 a5 t1 t2 u1 u2 u3 : String)
    (h : a1 ++ a2 ++ a3 ++ a4 ++ a5 ++ t1 ++ u1 ++ u2 ++ u3 =
         a1 ++ a2 ++ a3 ++ a4 ++ a5 ++ t2 ++ u1 ++ u2 ++ u3) : t1 = t2 := by
  have hd := congrArg String.data h
  simp only [String.data_append, List.append_assoc] at hd
  replace hd := List.append_cancel_left hd
  replace hd := List.append_cancel_left hd
  replace hd := List.append_cancel_left hd
  replace hd := List.append_cancel_left hd
  replace hd := List.append_cancel_left hd
  replace hd := List.append_cancel_right hd
  exact string_data_inj t1 t2 hd

theorem render_value_cancel (sa ra : Bytes) (x y : F32)
    (h : Transaction.render
        { sender_address := sa, receiver_address := ra, value := x, sign := [] } =
      Transaction.render
        { sender_address := sa, receiver_address := ra, value := y, sign := [] }) :
    x = y := by
  unfold Transaction.render at h
  have hr := string_append_five_cancel "\x7b\"sender_address\":" (renderBytes sa)
    ",\"receiver_address\":" (renderBytes ra) ",\"value\":" x.render y.render
    ",\"sign\":" (renderBytes []) "\x7d" h
  cases x
  cases y
  exact congrArg F32.mk hr

/-! ## Claim theorems -/

/-- C2: `verify_block p b k` is true exactly when the authority signature on
`b.sign` verifies under `k` over `b`'s hash (computed with the `sign` field
cleared, which is what `Block.hash` does), `b.previous_hash` equals the
computed hash of `p`, and every transaction of `b` passes
`verify_transaction`; any single failing condition makes the result false. -/
theorem verify_block_characterization (σ : CryptoModel) (p b : V3.Block)
    (k : Bytes) :
    V3.verify_block σ p b k = true ↔
      (σ.verify k (V3.Block.hash σ b) b.sign = true ∧
        b.previous_hash = V3.Block.hash σ p ∧
        ∀ t ∈ b.transactions, verify_transaction σ t = Except.ok ()) := by
  simp only [V3.verify_block]
  by_cases hv : σ.verify k (V3.Block.hash σ b) b.sign = true
  · rw [if_pos hv]
    simp only [hv, true_and, Bool.and_eq_true, beq_iff_eq, List.isEmpty_iff,
      List.filter_eq_nil_iff]
    constructor
    · rintro ⟨h1, h2⟩
      refine ⟨h1.symm, fun t ht => ?_⟩
      have h3 := h2 t ht
      rwa [Bool.not_eq_true, txIsErr_eq_false] at h3
    · rintro ⟨h1, h2⟩
      refine ⟨h1.symm, fun t ht => ?_⟩
      rw [Bool.not_eq_true, txIsErr_eq_false]
      exact h2 t ht
  · rw [if_neg hv]
    constructor
    · intro h
      exact absurd h (by simp)
    · rintro ⟨h1, -, -⟩
      exact absurd h1 hv

/-- C5: `verify_transaction` fails with the empty-signature error exactly when
the signature is empty; on a non-empty signature it recomputes the SHA-512
digest of the cleared-signature canonical encoding and checks it as an
Ed25519 signature under the sender address, returning `ok` on success and the
invalid-signature error otherwise.  The function is pure (modelled as a Lean
function on an unchanged `t`), so it never mutates its argument. -/
theorem verify_transaction_cases (σ : CryptoModel) (t : Transaction) :
    (verify_transaction σ t = .error .emptySignature ↔ t.sign = []) ∧
    (t.sign ≠ [] →
      σ.verify t.sender_address (σ.sha512 t.str_data) t.sign = true →
      verify_transaction σ t = .ok ()) ∧
    (t.sign ≠ [] →
      σ.verify t.sender_address (σ.sha512 t.str_data) t.sign = false →
      verify_transaction σ t = .error .invalidSignature) := by
  refine ⟨⟨fun h => ?_, fun hs => ?_⟩, fun hs hv => ?_, fun hs hv => ?_⟩
  · by_contra hs
    simp only [verify_transaction, if_neg hs] at h
    by_cases hv : σ.verify t.sender_address (σ.sha512 t.str_data) t.sign = true
    · rw [if_pos hv] at h
      exact absurd h (by simp)
    · rw [if_neg hv] at h
      exact absurd h (by simp)
  · simp only [verify_transaction, if_pos hs]
  · simp only [verify_transaction, if_neg hs]
    rw [if_pos hv]
  · simp only [verify_transaction, if_neg hs]
    rw [if_neg (by simp [hv])]

/-- Concrete evaluation of the C5 characterization: a transaction whose
signature was never set is rejected with the empty-signature error. -/
theorem verify_transaction_cases_witness :
    verify_transaction toyCrypto
      { sender_address := [], receiver_address := [], value := { render := "0" },
        sign := [] } = .error .emptySignature :=
  (verify_transaction_cases toyCrypto
    { sender_address := [], receiver_address := [], value := { render := "0" },
      sign := [] }).1.mpr rfl

/-- C3: a transaction produced by `send` carries the wallet's public key as
sender, the requested receiver and value, and a non-empty signature over the
SHA-512 digest of its cleared-signature canonical encoding, so that
`verify_transaction` accepts it.  Hypotheses: the wallet is well formed
(`Wallet::new` sets the address to the public half of the key material), the
signature scheme round-trips, and signatures are non-empty (Ed25519
signatures are 64 bytes). -/
theorem send_roundtrip (σ : CryptoModel) (w : Wallet) (r : Bytes) (v : F32)
    (hw : w.address = σ.publicKey w.private_key)
    (hok : ∀ sk m, σ.verify (σ.publicKey sk) m (σ.sign sk m) = true)
    (hne : ∀ sk m, σ.sign sk m ≠ []) :
    (Wallet.send σ w r v).sender_address = w.address ∧
    (Wallet.send σ w r v).receiver_address = r ∧
    (Wallet.send σ w r v).value = v ∧
    (Wallet.send σ w r v).sign ≠ [] ∧
    (Wallet.send σ w r v).sign =
      σ.sign w.private_key (σ.sha512 (Wallet.send σ w r v).str_data) ∧
    verify_transaction σ (Wallet.send σ w r v) = .ok () := by
  refine ⟨rfl, rfl, rfl, hne _ _, rfl, ?_⟩
  have hs : (Wallet.send σ w r v).sign ≠ [] := hne _ _
  simp only [verify_transaction, if_neg hs]
  rw [if_pos ?_]
  have h1 : (Wallet.send σ w r v).sender_address = σ.publicKey w.private_key := hw
  rw [h1]
  have h2 : (Wallet.send σ w r v).sign =
      σ.sign w.private_key (σ.sha512 (Wallet.send σ w r v).str_data) := rfl
  rw [h2]
  exact hok _ _

/-- Concrete evaluation of C3 with the executable toy model. -/
theorem send_roundtrip_witness :
    verify_transaction toyCrypto
      (Wallet.send toyCrypto { private_key := [1], address := [1] } [2]
        { render := "5.0" }) = .ok () :=
  (send_roundtrip toyCrypto { private_key := [1], address := [1] } [2]
    { render := "5.0" } rfl
    (by intro sk m; simp [toyCrypto])
    (by intro sk m h; simp [toyCrypto] at h)).2.2.2.2.2

/-- C4: taking the transaction produced and signed by `send` and replacing
its value while keeping the stale signature makes `verify_transaction`
reject.  Hypotheses: well-formed wallet, round-trip correctness, signature
message binding (one signature cannot verify two distinct messages under the
same key), and digest injectivity (SHA-512 collision freeness on the
encodings involved). -/
theorem tamper_value_detected (σ : CryptoModel) (w : Wallet) (r : Bytes)
    (v vNew : F32)
    (hw : w.address = σ.publicKey w.private_key)
    (hok : ∀ sk m, σ.verify (σ.publicKey sk) m (σ.sign sk m) = true)
    (hbind : ∀ pk m1 m2 sg, σ.verify pk m1 sg = true → σ.verify pk m2 sg = true →
      m1 = m2)
    (hinj : Function.Injective σ.sha512)
    (hv : vNew ≠ v) :
    verify_transaction σ { Wallet.send σ w r v with value := vNew } ≠ .ok () := by
  intro hcontra
  by_cases hs : ({ Wallet.send σ w r v with value := vNew } : Transaction).sign = []
  · simp only [verify_transaction, if_pos hs] at hcontra
    exact absurd hcontra (by simp)
  · simp only [verify_transaction, if_neg hs] at hcontra
    by_cases hvf : σ.verify
        ({ Wallet.send σ w r v with value := vNew } : Transaction).sender_address
        (σ.sha512 ({ Wallet.send σ w r v with value := vNew } : Transaction).str_data)
        ({ Wallet.send σ w r v with value := vNew } : Transaction).sign = true
    · have hsend : ({ Wallet.send σ w r v with value := vNew } : Transaction).sender_address
          = w.address := rfl
      have hver0 : σ.verify w.address
          (σ.sha512 (Transaction.str_data
            { sender_address := w.address, receiver_address := r, value := v,
              sign := [] }))
          ({ Wallet.send σ w r v with value := vNew } : Transaction).sign := by
        nth_rewrite 1 [hw]
        exact hok w.private_key (σ.sha512 (Transaction.str_data
          { sender_address := w.address, receiver_address := r, value := v,
            sign := [] }))
      rw [hsend] at hvf
      have heq := hbind w.address _ _ _ hvf hver0
      have hstr := hinj heq
      have hrender : Transaction.render
          { sender_address := w.address, receiver_address := r, value := vNew,
            sign := [] } =
          Transaction.render
          { sender_address := w.address, receiver_address := r, value := v,
            sign := [] } := hstr
      exact hv (render_value_cancel w.address r vNew v hrender)
    · rw [if_neg hvf] at hcontra
      exact absurd hcontra (by simp)

/-- Concrete evaluation of C4 with the executable toy model: the signed
5.0-valued transaction, mutated to 1.0, is rejected. -/
theorem tamper_value_detected_witness :
    verify_transaction toyCrypto
      { Wallet.send toyCrypto { private_key := [1], address := [1] } [2]
          { render := "5.0" } with value := { render := "1.0" } } ≠ .ok () :=
  tamper_value_detected toyCrypto { private_key := [1], address := [1] } [2]
    { render := "5.0" } { render := "1.0" } rfl
    (by intro sk m; simp [toyCrypto])
    (by
      intro pk m1 m2 sg h1 h2
      simp only [toyCrypto, beq_iff_eq] at h1 h2
      rw [h1] at h2
      have h3 : pk ++ m1 = pk ++ m2 := by
        have h4 := congrArg List.tail h2
        simpa using h4
      exact List.append_cancel_left h3)
    toySha_injective
    (by decide)

/-- C1: for a non-empty chain, `verify_blockchain` is true exactly when every
adjacent pair `(chain[i-1], chain[i])` for `1 ≤ i ≤ len-1` passes
`verify_block`, and the backward walk the code performs agrees with the
forward walk.  In the pairwise form the block at index 0 (the genesis) only
ever appears as the previous-block argument and is never itself the verified
block. -/
theorem verify_blockchain_pairwise (σ : CryptoModel) (chain : List V3.Block)
    (k : Bytes) (hlen : 1 ≤ chain.length) :
    (V3.verify_blockchain σ chain k = true ↔
      ∀ i, 1 ≤ i → i ≤ chain.length - 1 →
        V3.verify_block σ (chain.getD (i - 1) default) (chain.getD i default) k
          = true) ∧
    V3.verify_blockchain σ chain k = V3.verify_blockchain_fwd σ chain k := by
  have hb : V3.verify_blockchain σ chain k = true ↔
      ∀ i, 1 ≤ i → i ≤ chain.length - 1 →
        V3.verify_block σ (chain.getD (i - 1) default) (chain.getD i default) k
          = true := by
    simp only [V3.verify_blockchain, List.all_eq_true, List.mem_range]
    constructor
    · intro h j hj1 hj2
      have h1 := h (chain.length - 1 - j) (by omega)
      have e1 : chain.length - (chain.length - 1 - j) - 2 = j - 1 := by omega
      have e2 : chain.length - (chain.length - 1 - j) - 1 = j := by omega
      rw [e1, e2] at h1
      exact h1
    · intro h i hi
      have h1 := h (chain.length - i - 1) (by omega) (by omega)
      have e1 : chain.length - i - 1 - 1 = chain.length - i - 2 := by omega
      rw [e1] at h1
      exact h1
  have hf : V3.verify_blockchain_fwd σ chain k = true ↔
      ∀ i, 1 ≤ i → i ≤ chain.length - 1 →
        V3.verify_block σ (chain.getD (i - 1) default) (chain.getD i default) k
          = true := by
    simp only [V3.verify_blockchain_fwd, List.all_eq_true, List.mem_range]
    constructor
    · intro h j hj1 hj2
      have h1 := h (j - 1) (by omega)
      rw [show j - 1 + 1 = j from by omega] at h1
      exact h1
    · intro h i hi
      have h1 := h (i + 1) (by omega) (by omega)
      rw [show i + 1 - 1 = i from by omega] at h1
      exact h1
  exact ⟨hb, bool_eq_of_iff (hb.trans hf.symm)⟩

/-- Concrete evaluation of C1: on a one-block chain the backward and forward
walks agree. -/
theorem verify_blockchain_pairwise_witness :
    V3.verify_blockchain toyCrypto
      [{ time := "g", transactions := [], previous_hash := [], sign := [] }] [] =
    V3.verify_blockchain_fwd toyCrypto
      [{ time := "g", transactions := [], previous_hash := [], sign := [] }] [] :=
  (verify_blockchain_pairwise toyCrypto
    [{ time := "g", transactions := [], previous_hash := [], sign := [] }] []
    (by decide)).2

/-- C7: a freshly constructed `TimestampServer` holds exactly the genesis
block — empty transactions, empty previous hash — and `verify_blockchain`
accepts the one-block chain vacuously. -/
theorem fresh_server_genesis (σ : CryptoModel) (pkcs8 : Bytes) (now : String) :
    (V3.TimestampServer.new σ pkcs8 now).block_chain =
      [{ time := now, transactions := [], previous_hash := [], sign := [] }] ∧
    V3.verify_blockchain σ (V3.TimestampServer.new σ pkcs8 now).block_chain
      (V3.TimestampServer.new σ pkcs8 now).public_key = true :=
  ⟨rfl, rfl⟩

theorem getLastD_append_singleton {α : Type _} (l : List α) (b d : α) :
    (l ++ [b]).getLastD d = b :=
  List.getLastD_concat d b l

/-- C9: `generate_block` only appends one block: the chain grows by exactly
one, the old blocks are untouched (they are a prefix of the new chain), the
new tail links to the hash of the former tail and carries a copy of the
argument transactions, and the server's key fields are unchanged.  The
hypothesis that the chain is non-empty reflects the `last().unwrap()` in the
code, whose panic case `generateBlockChecked` makes explicit. -/
theorem generate_block_frame (σ : CryptoModel) (s : V3.TimestampServer)
    (txs : List Transaction) (now : String)
    (hne : s.block_chain ≠ []) :
    V3.TimestampServer.generateBlockChecked σ s txs now =
      some (V3.TimestampServer.generate_block σ s txs now) ∧
    (V3.TimestampServer.generate_block σ s txs now).block_chain.length =
      s.block_chain.length + 1 ∧
    (V3.TimestampServer.generate_block σ s txs now).block_chain.take
      s.block_chain.length = s.block_chain ∧
    ((V3.TimestampServer.generate_block σ s txs now).block_chain.getLastD
        default).previous_hash =
      V3.Block.hash σ (s.block_chain.getLastD default) ∧
    ((V3.TimestampServer.generate_block σ s txs now).block_chain.getLastD
        default).transactions = txs ∧
    (V3.TimestampServer.generate_block σ s txs now).public_key = s.public_key ∧
    (V3.TimestampServer.generate_block σ s txs now).signer = s.signer := by
  refine ⟨?_, ?_, ?_, ?_, ?_, rfl, rfl⟩
  · rw [V3.TimestampServer.generateBlockChecked,
      if_neg (by simpa [List.isEmpty_iff] using hne)]
  · simp [V3.TimestampServer.generate_block]
  · simp only [V3.TimestampServer.generate_block]
    exact List.take_left s.block_chain _
  · simp only [V3.TimestampServer.generate_block]
    rw [getLastD_append_singleton]
  · simp only [V3.TimestampServer.generate_block]
    rw [getLastD_append_singleton]

/-- Concrete evaluation of C9: appending to a fresh one-block ledger does not
panic and produces the checked result. -/
theorem generate_block_frame_witness :
    V3.TimestampServer.generateBlockChecked toyCrypto
      (V3.TimestampServer.new toyCrypto [1] "g") [] "t1" =
      some (V3.TimestampServer.generate_block toyCrypto
        (V3.TimestampServer.new toyCrypto [1] "g") [] "t1") :=
  (generate_block_frame toyCrypto (V3.TimestampServer.new toyCrypto [1] "g")
    [] "t1" (by simp [V3.TimestampServer.new])).1

theorem verifyChainCheckedAux_spec (σ : CryptoModel) (chain : List V3.Block)
    (pk : Bytes) :
    ∀ r i : Nat, i + r = chain.length - 1 → 1 ≤ chain.length →
      V3.verifyChainCheckedAux σ chain pk r i =
        some ((List.range' i r).all fun j =>
          V3.verify_block σ (chain.getD (chain.length - j - 2) default)
            (chain.getD (chain.length - j - 1) default) pk) := by
  intro r
  induction r with
  | zero =>
    intro i h h1
    simp [V3.verifyChainCheckedAux]
  | succ q ih =>
    intro i h h1
    have hn2 : 2 ≤ chain.length := by omega
    have hi : i ≤ chain.length - 2 := by omega
    have e1 : checkedSub chain.length i = some (chain.length - i) := by
      rw [checkedSub, if_pos (by omega)]
    have e2 : checkedSub (chain.length - i) 2 = some (chain.length - i - 2) := by
      rw [checkedSub, if_pos (by omega)]
    have e3 : checkedSub (chain.length - i) 1 = some (chain.length - i - 1) := by
      rw [checkedSub, if_pos (by omega)]
    have hlt2 : chain.length - i - 2 < chain.length := by omega
    have hlt1 : chain.length - i - 1 < chain.length := by omega
    have e4 : chain[chain.length - i - 2]? =
        some (chain.getD (chain.length - i - 2) default) := by
      rw [List.getElem?_eq_getElem hlt2, List.getD_eq_getElem chain default hlt2]
    have e5 : chain[chain.length - i - 1]? =
        some (chain.getD (chain.length - i - 1) default) := by
      rw [List.getElem?_eq_getElem hlt1, List.getD_eq_getElem chain default hlt1]
    rw [V3.verifyChainCheckedAux, e1]
    simp only [e2, e3, e4, e5]
    rw [List.range'_succ, List.all_cons]
    by_cases hV : V3.verify_block σ (chain.getD (chain.length - i - 2) default)
        (chain.getD (chain.length - i - 1) default) pk = true
    · rw [if_pos hV, hV, ih (i + 1) (by omega) h1]
      simp
    · rw [if_neg hV]
      rw [Bool.not_eq_true] at hV
      rw [hV]
      simp

/-- C10: on a non-empty chain every `usize` subtraction and every index
access of the `verify_blockchain` loop is in bounds, so the checked model
returns the same boolean the unchecked model computes; on the empty chain the
loop bound `chain.len() - 1` underflows, so non-emptiness is a required
precondition. -/
theorem verify_blockchain_safety (σ : CryptoModel) (chain : List V3.Block)
    (pk : Bytes) :
    (1 ≤ chain.length →
      V3.verify_blockchain_checked σ chain pk =
        some (V3.verify_blockchain σ chain pk)) ∧
    (chain.length = 0 → V3.verify_blockchain_checked σ chain pk = none) := by
  constructor
  · intro h1
    have e0 : checkedSub chain.length 1 = some (chain.length - 1) := by
      rw [checkedSub, if_pos h1]
    simp only [V3.verify_blockchain_checked, e0]
    rw [verifyChainCheckedAux_spec σ chain pk (chain.length - 1) 0 (by omega) h1]
    rw [V3.verify_blockchain, List.range_eq_range']
  · intro h0
    have : chain = [] := List.length_eq_zero.mp h0
    subst this
    rfl

/-- Concrete evaluation of C10 on a one-block chain. -/
theorem verify_blockchain_safety_witness :
    V3.verify_blockchain_checked toyCrypto
      [{ time := "g", transactions := [], previous_hash := [], sign := [] }] [] =
      some (V3.verify_blockchain toyCrypto
        [{ time := "g", transactions := [], previous_hash := [], sign := [] }] []) :=
  (verify_blockchain_safety toyCrypto
    [{ time := "g", transactions := [], previous_hash := [], sign := [] }] []).1
    (by decide)

theorem valid_proof_ok_iff (σ : CryptoModel) (b : V4.Block) :
    V4.valid_proof σ b = .ok () ↔
      ∀ i < V4.DIFFICULTY, (V4.Block.hash σ b).getD i 0 = 0 := by
  simp only [V4.valid_proof]
  by_cases h : (List.range V4.DIFFICULTY).all
      (fun i => (V4.Block.hash σ b).getD i 0 == 0) = true
  · rw [if_pos h]
    simp only [true_iff]
    rw [List.all_eq_true] at h
    intro i hi
    have h1 := h i (List.mem_range.mpr hi)
    simpa using h1
  · rw [if_neg h]
    constructor
    · intro hc
      exact absurd hc (by simp)
    · intro hall
      exfalso
      apply h
      rw [List.all_eq_true]
      intro i hi
      simpa using hall i (List.mem_range.mp hi)

theorem block_nonce_eta (b : V4.Block) : { b with nonce := b.nonce } = b := by
  cases b
  rfl

theorem mineAux_spec (σ : CryptoModel) :
    ∀ (fuel : Nat) (b r : V4.Block), V4.mineAux σ fuel b = some r →
      r.time = b.time ∧ r.transactions = b.transactions ∧
      r.previous_hash = b.previous_hash ∧ b.nonce ≤ r.nonce ∧
      (∀ m, b.nonce ≤ m → m < r.nonce →
        V4.proofErr (V4.valid_proof σ { b with nonce := m }) = true) ∧
      V4.proofErr (V4.valid_proof σ r) = false := by
  intro fuel
  induction fuel with
  | zero =>
    intro b r h
    simp [V4.mineAux] at h
  | succ f ih =>
    intro b r h
    rw [V4.mineAux] at h
    by_cases hp : V4.proofErr (V4.valid_proof σ b) = true
    · rw [if_pos hp] at h
      obtain ⟨h1, h2, h3, h4, h5, h6⟩ := ih { b with nonce := b.nonce + 1 } r h
      have h4x : b.nonce + 1 ≤ r.nonce := h4
      refine ⟨h1, h2, h3, by omega, ?_, h6⟩
      intro m hm1 hm2
      by_cases hm0 : m = b.nonce
      · subst hm0
        rwa [block_nonce_eta b]
      · have hx : b.nonce + 1 ≤ m := by omega
        exact h5 m hx hm2
    · rw [if_neg hp] at h
      obtain rfl : b = r := Option.some.inj h
      refine ⟨rfl, rfl, rfl, le_refl _, ?_, by simpa using hp⟩
      intro m hm1 hm2
      omega

/-- C6: whenever `mine` terminates it returns a block with the template's
time, transactions and previous hash, whose nonce is the least `n ≥ 0` making
the first `DIFFICULTY` bytes of the block's hash (computed with the nonce
included) all zero; consequently `valid_proof` accepts the mined block. -/
theorem mine_correct (σ : CryptoModel) (fuel : Nat) (tpl b : V4.Block)
    (hm : V4.mine σ fuel tpl = some b) :
    b.time = tpl.time ∧ b.transactions = tpl.transactions ∧
    b.previous_hash = tpl.previous_hash ∧
    (∀ m < b.nonce,
      ¬ ∀ i < V4.DIFFICULTY, (V4.Block.hash σ { b with nonce := m }).getD i 0 = 0) ∧
    (∀ i < V4.DIFFICULTY, (V4.Block.hash σ b).getD i 0 = 0) ∧
    V4.valid_proof σ b = .ok () := by
  obtain ⟨h1, h2, h3, h4, h5, h6⟩ := mineAux_spec σ fuel
    { time := tpl.time, transactions := tpl.transactions,
      previous_hash := tpl.previous_hash, nonce := 0 } b hm
  have hok : V4.valid_proof σ b = .ok () := (proofErr_eq_false _).mp h6
  refine ⟨h1, h2, h3, ?_, (valid_proof_ok_iff σ b).mp hok, hok⟩
  intro m hm2 hall
  have h7 := h5 m (Nat.zero_le m) hm2
  have h7x : V4.proofErr (V4.valid_proof σ
      { time := tpl.time, transactions := tpl.transactions,
        previous_hash := tpl.previous_hash, nonce := m }) = true := h7
  have h8 : ({ time := tpl.time, transactions := tpl.transactions,
               previous_hash := tpl.previous_hash, nonce := m } : V4.Block) =
      { b with nonce := m } := by
    cases b
    simp only [V4.Block.mk.injEq]
    exact ⟨h1.symm, h2.symm, h3.symm, trivial⟩
  rw [h8] at h7x
  have h9 : V4.valid_proof σ { b with nonce := m } = .ok () :=
    (valid_proof_ok_iff σ _).mpr hall
  rw [h9] at h7x
  simp [V4.proofErr] at h7x

/-- Concrete evaluation of C6: with the all-zero digest model the search
terminates at nonce 0 and `valid_proof` accepts the mined block. -/
theorem mine_correct_witness :
    V4.valid_proof zeroHashCrypto
      { time := "t", transactions := [], previous_hash := [], nonce := 0 } =
      .ok () :=
  (mine_correct zeroHashCrypto 1
    { time := "t", transactions := [], previous_hash := [], nonce := 0 }
    { time := "t", transactions := [], previous_hash := [], nonce := 0 }
    (by decide)).2.2.2.2.2

theorem string_append_seven_cancel (a1 a2 a3 a4 a5 a6 a7 t1 t2 u1 : String)
    (h : a1 ++ a2 ++ a3 ++ a4 ++ a5 ++ a6 ++ a7 ++ t1 ++ u1 =
         a1 ++ a2 ++ a3 ++ a4 ++ a5 ++ a6 ++ a7 ++ t2 ++ u1) : t1 = t2 := by
  have hd := congrArg String.data h
  simp only [String.data_append, List.append_assoc] at hd
  replace hd := List.append_cancel_left hd
  replace hd := List.append_cancel_left hd
  replace hd := List.append_cancel_left hd
  replace hd := List.append_cancel_left hd
  replace hd := List.append_cancel_left hd
  replace hd := List.append_cancel_left hd
  replace hd := List.append_cancel_left hd
  replace hd := List.append_cancel_right hd
  exact string_data_inj t1 t2 hd

/-- C8: in the authority-signed design the block hash clears the `sign`
field, so two blocks agreeing on time, transactions and previous hash have
the same hash whatever their signatures; in the proof-of-work design the
serialized content fed to the digest includes the nonce, so two blocks that
differ only in nonce serialize differently. -/
theorem hash_attestation_asymmetry :
    (∀ (σ : CryptoModel) (b1 b2 : V3.Block), b1.time = b2.time →
      b1.transactions = b2.transactions → b1.previous_hash = b2.previous_hash →
      b1.sign ≠ b2.sign → V3.Block.hash σ b1 = V3.Block.hash σ b2) ∧
    (∀ c1 c2 : V4.Block, c1.time = c2.time →
      c1.transactions = c2.transactions → c1.previous_hash = c2.previous_hash →
      c1.nonce ≠ c2.nonce → V4.blockRender c1 ≠ V4.blockRender c2) := by
  constructor
  · intro σ b1 b2 ht htx hp _
    rw [V3.Block.hash, V3.Block.hash, ht, htx, hp]
  · intro c1 c2 ht htx hp hn hcontra
    apply hn
    rw [V4.blockRender, V4.blockRender, ht, htx, hp] at hcontra
    have hr := string_append_seven_cancel "\x7b\"time\":\"" c2.time
      "\",\"transactions\":" (renderTransactionList c2.transactions)
      ",\"previous_hash\":" (renderBytes c2.previous_hash) ",\"nonce\":"
      (renderNat c1.nonce) (renderNat c2.nonce) "\x7d" hcontra
    exact renderNat_injective hr

/-- Concrete evaluation of the two halves of C8. -/
theorem hash_attestation_asymmetry_witness :
    V3.Block.hash toyCrypto
      { time := "t", transactions := [], previous_hash := [], sign := [5] } =
    V3.Block.hash toyCrypto
      { time := "t", transactions := [], previous_hash := [], sign := [6] } ∧
    V4.blockRender
      { time := "t", transactions := [], previous_hash := [], nonce := 0 } ≠
    V4.blockRender
      { time := "t", transactions := [], previous_hash := [], nonce := 1 } :=
  ⟨hash_attestation_asymmetry.1 toyCrypto
    { time := "t", transactions := [], previous_hash := [], sign := [5] }
    { time := "t", transactions := [], previous_hash := [], sign := [6] }
    rfl rfl rfl (by decide),
  hash_attestation_asymmetry.2
    { time := "t", transactions := [], previous_hash := [], nonce := 0 }
    { time := "t", transactions := [], previous_hash := [], nonce := 1 }
    rfl rfl rfl (by decide)⟩

/-- Concrete instantiation of the C2 characterization on a one-block pair. -/
theorem verify_block_characterization_witness :
    V3.verify_block toyCrypto
      { time := "g", transactions := [], previous_hash := [], sign := [] }
      { time := "g", transactions := [], previous_hash := [], sign := [] } []
      = true ↔
      (toyCrypto.verify []
        (V3.Block.hash toyCrypto
          { time := "g", transactions := [], previous_hash := [], sign := [] })
        ({ time := "g", transactions := [], previous_hash := [], sign := [] } :
          V3.Block).sign = true ∧
        ({ time := "g", transactions := [], previous_hash := [], sign := [] } :
          V3.Block).previous_hash =
          V3.Block.hash toyCrypto
            { time := "g", transactions := [], previous_hash := [], sign := [] } ∧
        ∀ t ∈ ({ time := "g", transactions := [], previous_hash := [], sign := [] } :
          V3.Block).transactions, verify_transaction toyCrypto t = Except.ok ()) :=
  verify_block_characterization toyCrypto
    { time := "g", transactions := [], previous_hash := [], sign := [] }
    { time := "g", transactions := [], previous_hash := [], sign := [] } []
